import Mathlib

/-!
Verification development for the SmartBlock AI engine
(`ai-engine/personalization.py` and `ai-engine/similarity_search.py`).

Modelling conventions:
* Python floats are modelled as exact rationals (`ℚ`); the claims under
  consideration concern structure and ordering, not float rounding.
* SQLite access in `PersonalizationEngine` (user interests, subscribed
  topics, interaction history, engagement counts) is modelled as an
  explicit environment `Env` supplying those lookups.
* `np.log` (used only inside the engagement boost) is transcendental and
  not rational-valued; the environment carries an abstract function
  `log1p : Nat → ℚ` standing for `np.log(1 + n)`.  No claim depends on
  actual logarithm values.
* Python's `sorted(..., key=score, reverse=True)` / `list.sort(...)` is a
  stable descending sort.  It is modelled by `List.insertionSort` with the
  relation `recGE` (score of the left argument ≥ score of the right):
  insertion sort is stable, and any two stable sorts with respect to the
  same total preorder agree extensionally.
* String lowering (`str.lower()`) and `str.isupper()` are modelled for
  ASCII text via `Char.toLower` / `Char.isUpper`; every configured safety
  keyword is ASCII.
-/

namespace SmartBlock

/-- Lowercase a string character by character (models `str.lower()` on
ASCII text). -/
def lowerStr (s : String) : String := String.mk (s.data.map Char.toLower)

/-- Python's substring test `pat in hay`. -/
def strContainsSub (hay pat : String) : Bool := decide (pat.data <:+: hay.data)

/-- Number of uppercase characters of a string (models
`sum(1 for c in s if c.isupper())`). -/
def capsCount (s : String) : Nat := s.data.countP Char.isUpper

/-- Number of `!?.` characters of a string (models
`sum(1 for c in s if c in "!?.")`). -/
def punctCount (s : String) : Nat :=
  s.data.countP (fun c => c == '!' || c == '?' || c == '.')

/-- A recommendation dictionary, as produced by
`SimilaritySearchEngine.get_recommendations` and mutated by
`PersonalizationEngine`.  Optional fields model dictionary keys that are
only added by later pipeline stages. -/
structure Rec where
  post_id : Int
  similarity_score : ℚ
  author_address : String
  author_username : String := ""
  content : String
  cleaned_content : String
  topics : List String
  timestamp : Int := 0
  days_old : Int
  rank : Option Nat := none
  recency_boost : Option ℚ := none
  topic_boost : Option ℚ := none
  matching_topics : Option (List String) := none
  engagement_boost : Option ℚ := none
  engagement_metrics : Option (Nat × Nat × Nat × Nat) := none
  diversity_penalty : Option ℚ := none
  safety_passed : Option Bool := none
  final_rank : Option Nat := none
  deriving DecidableEq, Inhabited

/-- External data consumed by `PersonalizationEngine` (SQLite lookups),
modelled as a read-only environment. -/
structure Env where
  user_interests : String → List String
  subscribed_topics : String → List String
  /-- Union of post ids over every interaction type of the user
  (`get_user_interaction_history` followed by the union taken in
  `personalize_recommendations`). -/
  interacted_posts : String → List Int
  /-- `(likes, comments, shares)` aggregated per post id. -/
  engagement_counts : Int → Nat × Nat × Nat
  /-- Abstract model of `np.log (1 + n)`. -/
  log1p : Nat → ℚ

/-- `PersonalizationEngine.recency_decay_days`. -/
def recencyDecayDays : Int := 30

/-- Recency boost factor of `calculate_recency_boost`. -/
def recencyFactor (days_old : Int) : ℚ :=
  if days_old ≤ 1 then 12/10
  else if days_old ≤ 7 then 11/10
  else if days_old ≤ recencyDecayDays then
    1 + (1/10) * (1 - (days_old : ℚ) / (recencyDecayDays : ℚ))
  else 1

/-- Per-record effect of `calculate_recency_boost`. -/
def applyRecency (r : Rec) : Rec :=
  { r with similarity_score := r.similarity_score * recencyFactor r.days_old,
           recency_boost := some (recencyFactor r.days_old) }

/-- `PersonalizationEngine.calculate_recency_boost`. -/
def calculate_recency_boost (recs : List Rec) : List Rec := recs.map applyRecency

/-- `list(set(rec["topics"]) ∩ all_preferred_topics)` of
`calculate_topic_boost` (set intersection, hence deduplicated). -/
def matchingTopics (preferred : List String) (r : Rec) : List String :=
  r.topics.dedup.filter (fun t => preferred.contains t)

/-- `PersonalizationEngine.topic_boost_factor`. -/
def topicBoostFactor : ℚ := 3/2

/-- Topic boost factor for a given overlap count. -/
def topicFactor (overlap : Nat) : ℚ :=
  1 + (topicBoostFactor - 1) * min ((overlap : ℚ) / 3) 1

/-- Per-record effect of `calculate_topic_boost`. -/
def applyTopic (preferred : List String) (r : Rec) : Rec :=
  let mt := matchingTopics preferred r
  if 0 < mt.length then
    { r with similarity_score := r.similarity_score * topicFactor mt.length,
             topic_boost := some (topicFactor mt.length),
             matching_topics := some mt }
  else
    { r with topic_boost := some 1, matching_topics := some [] }

/-- `PersonalizationEngine.calculate_topic_boost`; the preferred set is
`set(user_interests + subscribed_topics)`. -/
def calculate_topic_boost (recs : List Rec)
    (user_interests subscribed_topics : List String) : List Rec :=
  recs.map (applyTopic (user_interests ++ subscribed_topics))

/-- `engagement_score = likes + comments * 2 + shares * 3`. -/
def engagementScore (c : Nat × Nat × Nat) : Nat := c.1 + c.2.1 * 2 + c.2.2 * 3

/-- Per-record effect of `calculate_engagement_boost`; the SQLite
aggregation query is read from the environment. -/
def applyEngagement (env : Env) (r : Rec) : Rec :=
  let c := env.engagement_counts r.post_id
  let score := engagementScore c
  let boost : ℚ := if 0 < score then 1 + (1/10) * env.log1p score else 1
  { r with similarity_score := r.similarity_score * boost,
           engagement_boost := some boost,
           engagement_metrics := some (c.1, c.2.1, c.2.2, score) }

/-- `PersonalizationEngine.calculate_engagement_boost`. -/
def calculate_engagement_boost (env : Env) (recs : List Rec) : List Rec :=
  recs.map (applyEngagement env)

/-- `PersonalizationEngine.safety_keywords`. -/
def safety_keywords : List String :=
  ["spam", "scam", "fake", "bot", "advertisement", "ad", "promotion",
   "click here", "buy now", "limited time", "urgent", "winner",
   "congratulations", "free money", "get rich", "investment opportunity"]

/-- The `is_safe` computation of `apply_safety_filters`: keyword blacklist
over the lowered `content` and `cleaned_content`, then (only when no
keyword hit) the excessive-capitalisation check on texts longer than 20
characters and the excessive-punctuation check. -/
def isSafeRec (r : Rec) : Bool :=
  let content := lowerStr r.content
  let cleaned := lowerStr r.cleaned_content
  let kwHit := safety_keywords.any
    (fun kw => strContainsSub content kw || strContainsSub cleaned kw)
  if kwHit then false
  else
    let capsUnsafe : Bool :=
      if 20 < content.length then
        decide ((1 : ℚ) / 2 < (capsCount r.content : ℚ) / (content.length : ℚ))
      else false
    let punctUnsafe : Bool :=
      decide ((content.length : ℚ) * (1/10) < (punctCount content : ℚ))
    !(capsUnsafe || punctUnsafe)

/-- `PersonalizationEngine.apply_safety_filters`: keep safe records (with
`safety_passed = True` recorded); unsafe records are dropped from the
returned list (the in-place `safety_passed = False` mark on dropped
records is modelled by the store semantics below). -/
def apply_safety_filters : List Rec → List Rec
  | [] => []
  | r :: rest =>
    if isSafeRec r then
      { r with safety_passed := some true } :: apply_safety_filters rest
    else apply_safety_filters rest

/-- Descending-score ordering on recommendations; `insertionSort` with
this relation models Python's stable `sorted(..., key=score,
reverse=True)`. -/
def recGE (a b : Rec) : Prop := b.similarity_score ≤ a.similarity_score

instance : DecidableRel recGE := fun a b =>
  inferInstanceAs (Decidable (b.similarity_score ≤ a.similarity_score))

instance : IsTotal Rec recGE := ⟨fun a b => le_total b.similarity_score a.similarity_score⟩

instance : IsTrans Rec recGE := ⟨fun _ _ _ h h' => le_trans h' h⟩

/-- `PersonalizationEngine.max_posts_per_author`. -/
def maxPostsPerAuthor : Nat := 2

/-- `PersonalizationEngine.diversity_penalty`. -/
def diversityPenaltyQ : ℚ := 8/10

/-- First kept record of an author: score untouched, penalty field `1.0`. -/
def markFirst (r : Rec) : Rec := { r with diversity_penalty := some 1 }

/-- Repeated kept record of an author: score multiplied by the penalty. -/
def penalizeRepeat (r : Rec) : Rec :=
  { r with similarity_score := r.similarity_score * diversityPenaltyQ,
           diversity_penalty := some diversityPenaltyQ }

/-- The greedy loop of `enforce_diversity`, walking the sorted candidates
with a per-author counter. -/
def diversityGo : List Rec → (String → Nat) → List Rec
  | [], _ => []
  | r :: rest, counts =>
    let a := r.author_address
    if counts a < maxPostsPerAuthor then
      (if 0 < counts a then penalizeRepeat r else markFirst r) ::
        diversityGo rest (fun x => if x = a then counts a + 1 else counts x)
    else diversityGo rest counts

/-- `PersonalizationEngine.enforce_diversity`. -/
def enforce_diversity (recs : List Rec) : List Rec :=
  diversityGo (recs.insertionSort recGE) (fun _ => 0)

/-- The `for i, rec in enumerate(...): rec["final_rank"] = i + 1` loop. -/
def assignRanksFrom : Nat → List Rec → List Rec
  | _, [] => []
  | i, r :: rest => { r with final_rank := some (i + 1) } :: assignRanksFrom (i + 1) rest

/-- `PersonalizationEngine.personalize_recommendations`. -/
def personalize_recommendations (env : Env) (recs : List Rec)
    (user_address : String) : List Rec :=
  if recs.isEmpty then recs
  else
    let userInterests := env.user_interests user_address
    let subscribedTopics := env.subscribed_topics user_address
    let interacted := env.interacted_posts user_address
    let recs1 := recs.filter (fun r => !(interacted.contains r.post_id))
    if recs1.isEmpty then recs1
    else
      let recs2 := calculate_recency_boost recs1
      let recs3 := calculate_topic_boost recs2 userInterests subscribedTopics
      let recs4 := calculate_engagement_boost env recs3
      let recs5 := apply_safety_filters recs4
      let recs6 := enforce_diversity recs5
      let recs7 := recs6.insertionSort recGE
      assignRanksFrom 0 recs7

/-! ## Similarity search (`similarity_search.py`) -/

/-- The FAISS index structures `SimilaritySearchEngine` can build, with
the parameters the source sets on them:
* `flatIP` — `faiss.IndexFlatIP` (exact brute-force inner product);
* `ivfFlat nlist nprobe` — `faiss.IndexIVFFlat` with `nlist` clusters and
  `nprobe` probed clusters;
* `hnswFlat m efConstruction efSearch` — `faiss.IndexHNSWFlat`. -/
inductive FaissIndex
  | flatIP
  | ivfFlat (nlist nprobe : Nat)
  | hnswFlat (m efConstruction efSearch : Nat)
  deriving DecidableEq

/-- `SimilaritySearchEngine.create_flat_index` (no `train` call). -/
def create_flat_index : FaissIndex := .flatIP

/-- `SimilaritySearchEngine.create_ivf_index`: trains on the data and sets
`nprobe = min(10, nlist)`. -/
def create_ivf_index (nlist : Nat) : FaissIndex := .ivfFlat nlist (min 10 nlist)

/-- `SimilaritySearchEngine.create_hnsw_index` with the default `M = 16`,
`efConstruction = 200`, `efSearch = 50`. -/
def create_hnsw_index : FaissIndex := .hnswFlat 16 200 50

/-- Whether building the index runs a training pass: only
`create_ivf_index` calls `index.train`. -/
def indexTrainsOnData : FaissIndex → Bool
  | .ivfFlat _ _ => true
  | _ => false

/-- `SimilaritySearchEngine.build_index` with `index_type="auto"`, as a
function of the corpus size `n = embeddings.shape[0]`.  `int(np.sqrt(n))`
equals `Nat.sqrt n` throughout the relevant range (`n < 10000`, where the
float64 square root is far more accurate than the gap to the nearest
integer). -/
def build_index_auto (n : Nat) : FaissIndex :=
  if n < 1000 then create_flat_index
  else if n < 10000 then create_ivf_index (min (Nat.sqrt n) 1000)
  else create_hnsw_index

/-- A row of `SimilaritySearchEngine.post_data`. -/
structure Item where
  post_id : Int
  author_address : String
  author_username : String := ""
  post_text : String
  cleaned_text : String
  topics : List String
  timestamp : Int
  days_old : Int
  deriving DecidableEq, Inhabited

/-- State of a built `SimilaritySearchEngine`: the indexed (already
L2-normalized) vectors, `metadata["post_ids"]`, and the `post_data`
rows. -/
structure SearchState where
  embeddings : List (List ℚ)
  post_ids : List Int
  post_data : List Item

/-- Inner product of two embedding vectors. -/
def dotQ (a b : List ℚ) : ℚ := ((a.zip b).map (fun p => p.1 * p.2)).sum

/-- Descending ordering on `(score, index)` candidate pairs. -/
def candGE (a b : ℚ × Nat) : Prop := b.1 ≤ a.1

instance : DecidableRel candGE := fun a b =>
  inferInstanceAs (Decidable (b.1 ≤ a.1))

instance : IsTotal (ℚ × Nat) candGE := ⟨fun a b => le_total b.1 a.1⟩

instance : IsTrans (ℚ × Nat) candGE := ⟨fun _ _ _ h h' => le_trans h' h⟩

/-- `SimilaritySearchEngine.search`: score every indexed vector against
the query by inner product and return the top `k` `(score, index)` pairs
in descending score order.  The query argument is taken to be the already
L2-normalized query vector (`faiss.normalize_L2` involves a float square
root; it rescales scores by a positive constant and does not affect any
claim considered here). -/
def search (st : SearchState) (q : List ℚ) (k : Nat) : List (ℚ × Nat) :=
  let scored := (List.range st.embeddings.length).map
    (fun i => (dotQ q (st.embeddings.getD i []), i))
  (scored.insertionSort candGE).take k

/-- The recommendation dictionary built for one emitted candidate in
`get_recommendations`. -/
def mkRecommendation (similarity : ℚ) (item : Item) (rankPos : Nat) : Rec :=
  { post_id := item.post_id
    similarity_score := similarity
    author_address := item.author_address
    author_username := item.author_username
    content := item.post_text
    cleaned_content := item.cleaned_text
    topics := item.topics
    timestamp := item.timestamp
    days_old := item.days_old
    rank := some rankPos }

/-- The candidate-walking loop of `get_recommendations`: skip candidates
whose index position is out of range of `post_ids` (`idx >=
len(post_ids)`), skip excluded post ids, and look the post id up in
`post_data` — where `.iloc[0]` on an empty selection raises, modelled as
`Except.error`; append the recommendation and stop once `k` have been
emitted. -/
def recsGo (st : SearchState) (k : Nat) (exclude : List Int) :
    List (ℚ × Nat) → List Rec → Except String (List Rec)
  | [], acc => .ok acc
  | (sim, idx) :: rest, acc =>
    if st.post_ids.length ≤ idx then recsGo st k exclude rest acc
    else
      let postId := st.post_ids.getD idx 0
      if exclude.contains postId then recsGo st k exclude rest acc
      else
        match st.post_data.find? (fun item => item.post_id == postId) with
        | none => .error "IndexError: single positional indexer is out-of-bounds"
        | some item =>
          let acc' := acc ++ [mkRecommendation sim item (acc.length + 1)]
          if k ≤ acc'.length then .ok acc' else recsGo st k exclude rest acc'

/-- `SimilaritySearchEngine.get_recommendations`. -/
def get_recommendations (st : SearchState) (q : List ℚ) (k : Nat)
    (exclude : List Int) : Except String (List Rec) :=
  let searchK := min (k * 3) st.post_ids.length
  recsGo st k exclude (search st q searchK) []

/-! ## Store-level (heap) semantics of `personalize_recommendations`

Python dictionaries are mutated in place and Python lists hold references.
To reason about those frame effects, the caller's recommendation objects
are modelled as a store `List Rec` indexed by original position, and every
list of recommendations flowing through the pipeline as a list of indices
into that store.  Each stage both filters/reorders the index list and
mutates the store entries it visits, exactly as the source mutates the
underlying dictionaries. -/

/-- Dereference position `i` of the caller's store. -/
def getR (st : List Rec) (i : Nat) : Rec := st.getD i default

/-- Apply the in-place mutation `f` to every store entry referenced by
`live` (each caller object is passed to the pipeline once, so each is
mutated once per stage). -/
def mutateAt (live : List Nat) (f : Rec → Rec) (st : List Rec) : List Rec :=
  st.mapIdx (fun i r => if live.contains i then f r else r)

/-- Descending ordering of store indices by current similarity score. -/
def liveGE (st : List Rec) (i j : Nat) : Prop :=
  (getR st j).similarity_score ≤ (getR st i).similarity_score

instance (st : List Rec) : DecidableRel (liveGE st) := fun i j =>
  inferInstanceAs (Decidable ((getR st j).similarity_score ≤ (getR st i).similarity_score))

instance (st : List Rec) : IsTotal Nat (liveGE st) :=
  ⟨fun i j => le_total (getR st j).similarity_score (getR st i).similarity_score⟩

instance (st : List Rec) : IsTrans Nat (liveGE st) :=
  ⟨fun _ _ _ h h' => le_trans h' h⟩

/-- Store-level greedy loop of `enforce_diversity`: returns the kept
index list and the store after the in-place penalty mutations. -/
def diversityGoS : List Nat → (String → Nat) → List Rec → List Nat × List Rec
  | [], _, st => ([], st)
  | i :: rest, counts, st =>
    let r := getR st i
    let a := r.author_address
    if counts a < maxPostsPerAuthor then
      let rNew := if 0 < counts a then penalizeRepeat r else markFirst r
      let res := diversityGoS rest (fun x => if x = a then counts a + 1 else counts x)
        (st.set i rNew)
      (i :: res.1, res.2)
    else diversityGoS rest counts st

/-- Store-level `final_rank` assignment loop. -/
def assignRanksFromS : Nat → List Nat → List Rec → List Rec
  | _, [], st => st
  | j, i :: rest, st =>
    assignRanksFromS (j + 1) rest (st.set i { getR st i with final_rank := some (j + 1) })

/-- The composite in-place mutation of the three boost stages on one
record. -/
def boostAll (env : Env) (preferred : List String) (r : Rec) : Rec :=
  applyEngagement env (applyTopic preferred (applyRecency r))

/-- Store-level `personalize_recommendations`: the caller passes the store
`st0` of recommendation objects; the result is the returned list (as
indices into the caller's store, capturing aliasing) together with the
caller's objects after the call. -/
def personalizeS (env : Env) (st0 : List Rec) (user_address : String) :
    List Nat × List Rec :=
  if st0.isEmpty then ([], st0)
  else
    let preferred := env.user_interests user_address ++ env.subscribed_topics user_address
    let interacted := env.interacted_posts user_address
    let live1 := (List.range st0.length).filter
      (fun i => !(interacted.contains (getR st0 i).post_id))
    if live1.isEmpty then ([], st0)
    else
      let st2 := mutateAt live1 applyRecency st0
      let st3 := mutateAt live1 (applyTopic preferred) st2
      let st4 := mutateAt live1 (applyEngagement env) st3
      let st5 := mutateAt live1 (fun r => { r with safety_passed := some (isSafeRec r) }) st4
      let live5 := live1.filter (fun i => isSafeRec (getR st5 i))
      let sorted5 := live5.insertionSort (liveGE st5)
      let res6 := diversityGoS sorted5 (fun _ => 0) st5
      let live7 := res6.1.insertionSort (liveGE res6.2)
      let st7 := assignRanksFromS 0 live7 res6.2
      (live7, st7)

/-! ## Concrete inputs used by witnesses and counterexamples -/

/-- Recommendation aged 1 day with starting score `0`. -/
def cexYoung : Rec :=
  { post_id := 1, similarity_score := 0, author_address := "a",
    content := "", cleaned_content := "", topics := [], days_old := 1 }

/-- Recommendation aged 30 days with starting score `0`. -/
def cexOld : Rec := { cexYoung with post_id := 2, days_old := 30 }

/-- Recommendation aged 1 day with starting score `1`. -/
def cexYoungPos : Rec := { cexYoung with similarity_score := 1 }

/-- Recommendation aged 30 days with starting score `1`. -/
def cexOldPos : Rec := { cexOld with similarity_score := 1 }

/-- A search state whose metadata names post id `5` but whose `post_data`
has no row for it (stale metadata). -/
def staleState : SearchState :=
  { embeddings := [[1]], post_ids := [5], post_data := [] }

/-- Item record for post `1`. -/
def itemW1 : Item :=
  { post_id := 1, author_address := "a", post_text := "good morning",
    cleaned_text := "good morning", topics := [], timestamp := 0, days_old := 1 }

/-- Item record for post `2`. -/
def itemW2 : Item :=
  { post_id := 2, author_address := "b", post_text := "fine evening",
    cleaned_text := "fine evening", topics := [], timestamp := 0, days_old := 2 }

/-- A consistent two-post search state. -/
def goodState : SearchState :=
  { embeddings := [[1], [-1]], post_ids := [1, 2], post_data := [itemW1, itemW2] }

/-- Environment with no stored preferences or interactions. -/
def envW : Env :=
  { user_interests := fun _ => [], subscribed_topics := fun _ => [],
    interacted_posts := fun _ => [], engagement_counts := fun _ => (0, 0, 0),
    log1p := fun _ => 0 }

/-- Environment whose user has interacted with post `1` only. -/
def envI1 : Env := { envW with interacted_posts := fun _ => [1] }

/-- Environment whose user has interacted with posts `1, 2, 3`. -/
def envIAll : Env := { envW with interacted_posts := fun _ => [1, 2, 3] }

/-- A spam recommendation (matches the blacklist keyword check). -/
def recSpamW : Rec :=
  { post_id := 7, similarity_score := 1, author_address := "a",
    content := "SPAM BUY NOW LIMITED TIME OFFER!!!",
    cleaned_content := "spam buy now limited time offer", topics := [], days_old := 1 }

/-- Safe recommendation, author `"a"`, score `3`. -/
def recA1 : Rec :=
  { post_id := 1, similarity_score := 3, author_address := "a",
    content := "", cleaned_content := "",
    topics := [], days_old := 1 }

/-- Safe recommendation, author `"a"`, score `2`. -/
def recA2 : Rec := { recA1 with post_id := 2, similarity_score := 2 }

/-- Safe recommendation, author `"a"`, score `1`. -/
def recA3 : Rec := { recA1 with post_id := 3, similarity_score := 1 }

/-- Safe recommendation, author `"b"`, score `2` (ties with `recA2`). -/
def recB2 : Rec := { recA1 with post_id := 4, similarity_score := 2, author_address := "b" }

/-! ## Helper lemmas -/

theorem personalize_eq_pipeline (env : Env) (recs : List Rec) (u : String) :
    personalize_recommendations env recs u =
      assignRanksFrom 0 ((enforce_diversity (apply_safety_filters
        (calculate_engagement_boost env (calculate_topic_boost
          (calculate_recency_boost (recs.filter
            (fun r => !((env.interacted_posts u).contains r.post_id))))
          (env.user_interests u) (env.subscribed_topics u))))).insertionSort recGE) := by
  cases recs with
  | nil => rfl
  | cons a l =>
    rw [personalize_recommendations]
    simp only [List.isEmpty_cons, Bool.false_eq_true, if_false]
    by_cases h1 :
        ((a :: l).filter (fun r => !((env.interacted_posts u).contains r.post_id))).isEmpty
    · rw [if_pos h1]
      rw [List.isEmpty_iff] at h1
      rw [h1]
      rfl
    · rw [if_neg h1]

theorem length_assignRanksFrom (i : Nat) (l : List Rec) :
    (assignRanksFrom i l).length = l.length := by
  induction l generalizing i with
  | nil => rfl
  | cons a t ih => simp [assignRanksFrom, ih]

theorem map_finalRank_assignRanksFrom (i : Nat) (l : List Rec) :
    (assignRanksFrom i l).map (fun r => r.final_rank)
      = (List.range' (i + 1) l.length).map some := by
  induction l generalizing i with
  | nil => rfl
  | cons a t ih => simp [assignRanksFrom, List.range'_succ, ih]

theorem map_score_assignRanksFrom (i : Nat) (l : List Rec) :
    (assignRanksFrom i l).map (fun r => r.similarity_score)
      = l.map (fun r => r.similarity_score) := by
  induction l generalizing i with
  | nil => rfl
  | cons a t ih => simp [assignRanksFrom, ih]

/-! ## Claim theorems -/

/-- C1: for every non-empty input list and every user,
`personalize_recommendations` is exactly the composition of its stages in
the order: exclusion of interacted posts, recency boost, topic boost,
engagement boost, safety filter, diversity enforcement, a final stable
descending re-sort, and only then the `final_rank` assignment. -/
theorem personalize_applies_stages_in_order (env : Env) (recs : List Rec)
    (u : String) (hne : recs ≠ []) :
    personalize_recommendations env recs u =
      assignRanksFrom 0 ((enforce_diversity (apply_safety_filters
        (calculate_engagement_boost env (calculate_topic_boost
          (calculate_recency_boost (recs.filter
            (fun r => !((env.interacted_posts u).contains r.post_id))))
          (env.user_interests u) (env.subscribed_topics u))))).insertionSort recGE) :=
  personalize_eq_pipeline env recs u

/-- Witness for C1 at a concrete non-empty input. -/
theorem personalize_applies_stages_in_order_witness :
    personalize_recommendations envW [recA1] "u" =
      assignRanksFrom 0 ((enforce_diversity (apply_safety_filters
        (calculate_engagement_boost envW (calculate_topic_boost
          (calculate_recency_boost ([recA1].filter
            (fun r => !((envW.interacted_posts "u").contains r.post_id))))
          (envW.user_interests "u") (envW.subscribed_topics "u"))))).insertionSort recGE) :=
  personalize_applies_stages_in_order envW [recA1] "u" (by simp)

/-- C4: whenever `personalize_recommendations` returns a list of length
`N`, its `final_rank` fields in list order are exactly `1, 2, ..., N`
(no duplicates or gaps), and the `similarity_score` sequence of the
returned list is non-increasing. -/
theorem personalize_ranks_dense_scores_descending (env : Env) (recs : List Rec)
    (u : String) :
    (personalize_recommendations env recs u).map (fun r => r.final_rank)
      = (List.range' 1 (personalize_recommendations env recs u).length).map some
    ∧ List.Pairwise (fun a b : Rec => b.similarity_score ≤ a.similarity_score)
        (personalize_recommendations env recs u) := by
  rw [personalize_eq_pipeline]
  constructor
  · rw [map_finalRank_assignRanksFrom, length_assignRanksFrom]
  · have hs : List.Sorted recGE ((enforce_diversity (apply_safety_filters
        (calculate_engagement_boost env (calculate_topic_boost
          (calculate_recency_boost (recs.filter
            (fun r => !((env.interacted_posts u).contains r.post_id))))
          (env.user_interests u) (env.subscribed_topics u))))).insertionSort recGE) :=
      List.sorted_insertionSort recGE _
    have h1 : List.Pairwise (fun x y : ℚ => y ≤ x)
        (((enforce_diversity (apply_safety_filters
          (calculate_engagement_boost env (calculate_topic_boost
            (calculate_recency_boost (recs.filter
              (fun r => !((env.interacted_posts u).contains r.post_id))))
            (env.user_interests u) (env.subscribed_topics u))))).insertionSort recGE).map
          (fun r => r.similarity_score)) :=
      List.pairwise_map.mpr hs
    rw [← map_score_assignRanksFrom 0] at h1
    exact List.pairwise_map.mp h1

theorem mem_apply_safety_filters {r : Rec} {l : List Rec}
    (h : r ∈ apply_safety_filters l) :
    ∃ r0 ∈ l, isSafeRec r0 = true ∧ r = { r0 with safety_passed := some true } := by
  induction l with
  | nil => exact absurd h (List.not_mem_nil r)
  | cons a t ih =>
    by_cases hs : isSafeRec a
    · rw [apply_safety_filters, if_pos hs] at h
      rcases List.mem_cons.mp h with h1 | h1
      · exact ⟨a, List.mem_cons_self a t, hs, h1⟩
      · obtain ⟨r0, hr0, hsafe, he⟩ := ih h1
        exact ⟨r0, List.mem_cons_of_mem a hr0, hsafe, he⟩
    · rw [apply_safety_filters, if_neg hs] at h
      obtain ⟨r0, hr0, hsafe, he⟩ := ih h
      exact ⟨r0, List.mem_cons_of_mem a hr0, hsafe, he⟩

theorem mem_diversityGo {r : Rec} {l : List Rec} {c : String → Nat}
    (h : r ∈ diversityGo l c) :
    ∃ r0 ∈ l, r = markFirst r0 ∨ r = penalizeRepeat r0 := by
  induction l generalizing c with
  | nil => exact absurd h (List.not_mem_nil r)
  | cons a t ih =>
    by_cases hc : c a.author_address < maxPostsPerAuthor
    · rw [diversityGo] at h
      simp only [hc, if_true] at h
      rcases List.mem_cons.mp h with h1 | h1
      · refine ⟨a, List.mem_cons_self a t, ?_⟩
        by_cases hp : 0 < c a.author_address
        · right; rw [h1, if_pos hp]
        · left; rw [h1, if_neg hp]
      · obtain ⟨r0, hr0, he⟩ := ih h1
        exact ⟨r0, List.mem_cons_of_mem a hr0, he⟩
    · rw [diversityGo] at h
      simp only [hc, if_false] at h
      obtain ⟨r0, hr0, he⟩ := ih h
      exact ⟨r0, List.mem_cons_of_mem a hr0, he⟩

theorem mem_assignRanksFrom {r : Rec} {i : Nat} {l : List Rec}
    (h : r ∈ assignRanksFrom i l) :
    ∃ r0 ∈ l, ∃ j : Nat, r = { r0 with final_rank := some j } := by
  induction l generalizing i with
  | nil => exact absurd h (List.not_mem_nil r)
  | cons a t ih =>
    rcases List.mem_cons.mp h with h1 | h1
    · exact ⟨a, List.mem_cons_self a t, i + 1, h1⟩
    · obtain ⟨r0, hr0, j, he⟩ := ih h1
      exact ⟨r0, List.mem_cons_of_mem a hr0, j, he⟩

theorem post_id_mem_personalize {env : Env} {recs : List Rec} {u : String}
    {r : Rec} (hr : r ∈ personalize_recommendations env recs u) :
    ∃ r1 ∈ recs, ((env.interacted_posts u).contains r1.post_id) = false
      ∧ r.post_id = r1.post_id := by
  rw [personalize_eq_pipeline] at hr
  obtain ⟨r7, h7, j, rfl⟩ := mem_assignRanksFrom hr
  rw [List.mem_insertionSort] at h7
  obtain ⟨r6, h6, he6⟩ := mem_diversityGo h7
  rw [List.mem_insertionSort] at h6
  obtain ⟨r5, h5, hsafe, rfl⟩ := mem_apply_safety_filters h6
  obtain ⟨r4, h4, rfl⟩ := List.mem_map.mp h5
  obtain ⟨r3, h3, rfl⟩ := List.mem_map.mp h4
  obtain ⟨r2, h2, rfl⟩ := List.mem_map.mp h3
  obtain ⟨h2m, h2p⟩ := List.mem_filter.mp h2
  refine ⟨r2, h2m, by simpa using h2p, ?_⟩
  have hp4 : (applyEngagement env (applyTopic
      (env.user_interests u ++ env.subscribed_topics u) (applyRecency r2))).post_id
      = r2.post_id := by
    simp [applyEngagement, applyTopic, applyRecency]
    split <;> rfl
  rcases he6 with he | he <;>
    simp [he, markFirst, penalizeRepeat] <;> exact hp4

/-- C5: no recommendation whose post id the user has interacted with
appears in the output of `personalize_recommendations`; and when
exclusion removes every candidate, the call returns the empty list as a
valid result. -/
theorem personalize_exclusion_correct (env : Env) (recs : List Rec) (u : String) :
    (∀ r ∈ personalize_recommendations env recs u,
        r.post_id ∉ env.interacted_posts u)
    ∧ ((∀ r ∈ recs, r.post_id ∈ env.interacted_posts u) →
        personalize_recommendations env recs u = []) := by
  constructor
  · intro r hr
    obtain ⟨r1, _, hc, hp⟩ := post_id_mem_personalize hr
    rw [hp]
    intro hmem
    have hct : (env.interacted_posts u).contains r1.post_id = true := by simp [hmem]
    rw [hc] at hct
    exact Bool.false_ne_true hct
  · intro hall
    rw [personalize_eq_pipeline]
    have hnil : recs.filter (fun r => !((env.interacted_posts u).contains r.post_id)) = [] := by
      rw [List.filter_eq_nil_iff]
      intro a ha
      simp [hall a ha]
    rw [hnil]
    rfl

/-- Witness for C5: with every candidate interacted the output is empty,
and with post `1` interacted the surviving head of the output has a
non-interacted post id. -/
theorem personalize_exclusion_correct_witness :
    personalize_recommendations envIAll [recA1, recA2, recA3] "u" = []
    ∧ ((personalize_recommendations envI1 [recA1, recA2] "u").head
        (by
          norm_num [personalize_recommendations, envI1, envW, recA1, recA2,
            calculate_recency_boost, calculate_topic_boost, calculate_engagement_boost,
            applyRecency, applyTopic, applyEngagement, recencyFactor, topicFactor,
            matchingTopics, engagementScore, apply_safety_filters, isSafeRec,
            enforce_diversity, diversityGo, markFirst, penalizeRepeat,
            maxPostsPerAuthor, diversityPenaltyQ,
            List.insertionSort, List.orderedInsert, recGE, assignRanksFrom,
            lowerStr, strContainsSub, capsCount, punctCount, safety_keywords])).post_id
      ∉ envI1.interacted_posts "u" :=
  ⟨(personalize_exclusion_correct envIAll [recA1, recA2, recA3] "u").2 (by decide),
   (personalize_exclusion_correct envI1 [recA1, recA2] "u").1 _ (List.head_mem _)⟩

theorem author_markFirst (r : Rec) : (markFirst r).author_address = r.author_address := rfl

theorem author_penalizeRepeat (r : Rec) :
    (penalizeRepeat r).author_address = r.author_address := rfl

theorem countP_diversityGo (l : List Rec) (c : String → Nat) (a : String) :
    (diversityGo l c).countP (fun r => r.author_address == a)
      ≤ maxPostsPerAuthor - c a := by
  induction l generalizing c with
  | nil => simp [diversityGo]
  | cons r t ih =>
    by_cases hc : c r.author_address < maxPostsPerAuthor
    · simp only [diversityGo]
      rw [if_pos hc]
      simp only [List.countP_cons]
      have hauthor :
          (if 0 < c r.author_address then penalizeRepeat r else markFirst r).author_address
            = r.author_address := by
        split <;> rfl
      rw [hauthor]
      have hih := ih (fun x => if x = r.author_address then c r.author_address + 1 else c x)
      by_cases hab : r.author_address = a
      · subst hab
        simp at hih ⊢
        omega
      · have hca :
            (if a = r.author_address then c r.author_address + 1 else c a) = c a :=
          if_neg (fun h => hab h.symm)
        simp only [hca] at hih
        have hne : (r.author_address == a) = false := by
          simpa using hab
        simp [hne]
        omega
    · simp only [diversityGo]
      rw [if_neg hc]
      exact ih c

theorem diversityGo_get (l : List Rec) (c : String → Nat) (i : Nat)
    (h : i < (diversityGo l c).length) :
    (c ((diversityGo l c).get ⟨i, h⟩).author_address
        + ((diversityGo l c).take i).countP
            (fun x => x.author_address == ((diversityGo l c).get ⟨i, h⟩).author_address) = 0
      → ∃ r0 ∈ l, (diversityGo l c).get ⟨i, h⟩ = markFirst r0)
    ∧ (0 < c ((diversityGo l c).get ⟨i, h⟩).author_address
        + ((diversityGo l c).take i).countP
            (fun x => x.author_address == ((diversityGo l c).get ⟨i, h⟩).author_address)
      → ∃ r0 ∈ l, (diversityGo l c).get ⟨i, h⟩ = penalizeRepeat r0) := by
  induction l generalizing c i with
  | nil => simp [diversityGo] at h
  | cons r t ih =>
    by_cases hc : c r.author_address < maxPostsPerAuthor
    · have hget : diversityGo (r :: t) c
          = (if 0 < c r.author_address then penalizeRepeat r else markFirst r)
            :: diversityGo t (fun x => if x = r.author_address then c r.author_address + 1 else c x) := by
        simp only [diversityGo]
        rw [if_pos hc]
      have hauthor :
          (if 0 < c r.author_address then penalizeRepeat r else markFirst r).author_address
            = r.author_address := by
        split <;> rfl
      revert h
      rw [hget]
      intro h
      cases i with
      | zero =>
        simp only [List.get_eq_getElem, List.getElem_cons_zero, List.take_zero,
          List.countP_nil, Nat.add_zero, hauthor]
        constructor
        · intro h0
          refine ⟨r, List.mem_cons_self r t, ?_⟩
          rw [if_neg (by omega)]
        · intro hpos
          exact ⟨r, List.mem_cons_self r t, if_pos hpos⟩
      | succ j =>
        have hj : j < (diversityGo t
            (fun x => if x = r.author_address then c r.author_address + 1 else c x)).length := by
          simpa using h
        have hihj := ih (fun x => if x = r.author_address then c r.author_address + 1 else c x) j hj
        simp only [List.get_eq_getElem, List.getElem_cons_succ, List.take_succ_cons,
          List.countP_cons] at hihj ⊢
        have hsum : ∀ s : Rec,
            c s.author_address
              + (List.countP (fun x => x.author_address == s.author_address)
                  ((diversityGo t (fun x => if x = r.author_address then c r.author_address + 1 else c x)).take j)
                + if ((if 0 < c r.author_address then penalizeRepeat r else markFirst r).author_address
                      == s.author_address) = true then 1 else 0)
              = (if s.author_address = r.author_address then c r.author_address + 1 else c s.author_address)
                + List.countP (fun x => x.author_address == s.author_address)
                    ((diversityGo t (fun x => if x = r.author_address then c r.author_address + 1 else c x)).take j) := by
          intro s
          rw [hauthor]
          by_cases hrs : s.author_address = r.author_address
          · rw [if_pos hrs, hrs]
            simp only [beq_self_eq_true, eq_self_iff_true, if_true]
            omega
          · rw [if_neg hrs]
            have : (r.author_address == s.author_address) = false := by
              simpa using fun hh => hrs hh.symm
            rw [this]
            simp
        constructor
        · intro h0
          rw [hsum] at h0
          obtain ⟨r0, hr0, he⟩ := hihj.1 h0
          exact ⟨r0, List.mem_cons_of_mem r hr0, he⟩
        · intro hpos
          rw [hsum] at hpos
          obtain ⟨r0, hr0, he⟩ := hihj.2 hpos
          exact ⟨r0, List.mem_cons_of_mem r hr0, he⟩
    · have hget : diversityGo (r :: t) c = diversityGo t c := by
        simp only [diversityGo]
        rw [if_neg hc]
      revert h
      rw [hget]
      intro h
      obtain ⟨h1, h2⟩ := ih c i h
      constructor
      · intro h0
        obtain ⟨r0, hr0, he⟩ := h1 h0
        exact ⟨r0, List.mem_cons_of_mem r hr0, he⟩
      · intro hpos
        obtain ⟨r0, hr0, he⟩ := h2 hpos
        exact ⟨r0, List.mem_cons_of_mem r hr0, he⟩

/-- C3: `enforce_diversity` keeps at most `max_posts_per_author` (2)
records per author; candidates are considered in descending score order
with a stable tie-break (the stable sort `insertionSort recGE`); the
first kept record of an author is `markFirst` (score unmultiplied), the
second is `penalizeRepeat` (score multiplied by the `0.8` penalty before
inclusion), and records beyond the cap are dropped rather than
penalized-and-kept. -/
theorem enforce_diversity_cap_and_penalties (recs : List Rec) :
    (∀ a : String,
        (enforce_diversity recs).countP (fun r => r.author_address == a)
          ≤ maxPostsPerAuthor)
    ∧ enforce_diversity recs = diversityGo (recs.insertionSort recGE) (fun _ => 0)
    ∧ (recs.insertionSort recGE).Perm recs
    ∧ List.Sorted recGE (recs.insertionSort recGE)
    ∧ (∀ a b : Rec, a.similarity_score = b.similarity_score
        → [a, b].Sublist recs → [a, b].Sublist (recs.insertionSort recGE))
    ∧ (∀ i : Nat, ∀ h : i < (enforce_diversity recs).length,
        (((enforce_diversity recs).take i).countP
            (fun x => x.author_address == ((enforce_diversity recs).get ⟨i, h⟩).author_address) = 0
          → ∃ r0 ∈ recs, (enforce_diversity recs).get ⟨i, h⟩ = markFirst r0)
        ∧ (0 < ((enforce_diversity recs).take i).countP
            (fun x => x.author_address == ((enforce_diversity recs).get ⟨i, h⟩).author_address)
          → ∃ r0 ∈ recs, (enforce_diversity recs).get ⟨i, h⟩ = penalizeRepeat r0)) := by
  refine ⟨?_, rfl, List.perm_insertionSort recGE recs,
    List.sorted_insertionSort recGE recs, ?_, ?_⟩
  · intro a
    have hcap := countP_diversityGo (recs.insertionSort recGE) (fun _ => 0) a
    simpa [enforce_diversity] using hcap
  · intro a b hs hsub
    exact List.pair_sublist_insertionSort (show recGE a b from le_of_eq hs.symm) hsub
  · intro i h
    have hd := diversityGo_get (recs.insertionSort recGE) (fun _ => 0) i h
    simp only [Nat.zero_add] at hd
    have hperm := List.perm_insertionSort recGE recs
    exact ⟨fun h0 => by
        obtain ⟨r0, hr0, he⟩ := hd.1 h0
        exact ⟨r0, hperm.subset hr0, he⟩,
      fun hpos => by
        obtain ⟨r0, hr0, he⟩ := hd.2 hpos
        exact ⟨r0, hperm.subset hr0, he⟩⟩

/-- Witness for C3: cap at a concrete author, a concrete first-kept item,
and stable tie-break on a concrete equal-score pair. -/
theorem enforce_diversity_cap_and_penalties_witness :
    (enforce_diversity [recA1, recA2, recA3]).countP
        (fun r => r.author_address == "a") ≤ maxPostsPerAuthor
    ∧ (∃ r0 ∈ [recA1, recA2, recA3],
        (enforce_diversity [recA1, recA2, recA3]).get
          ⟨0, by
            norm_num [enforce_diversity, diversityGo, markFirst, penalizeRepeat,
              maxPostsPerAuthor, diversityPenaltyQ, List.insertionSort,
              List.orderedInsert, recGE, recA1, recA2, recA3]⟩ = markFirst r0)
    ∧ [recA2, recB2].Sublist ([recA2, recB2].insertionSort recGE) :=
  ⟨(enforce_diversity_cap_and_penalties [recA1, recA2, recA3]).1 "a",
   ((enforce_diversity_cap_and_penalties [recA1, recA2, recA3]).2.2.2.2.2 0
      (by
        norm_num [enforce_diversity, diversityGo, markFirst, penalizeRepeat,
          maxPostsPerAuthor, diversityPenaltyQ, List.insertionSort,
          List.orderedInsert, recGE, recA1, recA2, recA3])).1 rfl,
   (enforce_diversity_cap_and_penalties [recA2, recB2]).2.2.2.2.1 recA2 recB2 rfl
     (List.Sublist.refl _)⟩

theorem apply_safety_filters_eq_filter_map (recs : List Rec) :
    apply_safety_filters recs
      = (recs.filter isSafeRec).map (fun r => { r with safety_passed := some true }) := by
  induction recs with
  | nil => rfl
  | cons a t ih =>
    by_cases hs : isSafeRec a <;>
      simp [apply_safety_filters, List.filter_cons, hs, ih]

theorem isSafeRec_spam_content (r : Rec)
    (hc : r.content = "SPAM BUY NOW LIMITED TIME OFFER!!!") : isSafeRec r = false := by
  have h1 : strContainsSub (lowerStr r.content) "spam" = true := by
    rw [hc]; decide
  have hkw : safety_keywords.any
      (fun kw => strContainsSub (lowerStr r.content) kw
        || strContainsSub (lowerStr r.cleaned_content) kw) = true := by
    rw [List.any_eq_true]
    exact ⟨"spam", by decide, by rw [h1]; rfl⟩
  simp [isSafeRec, hkw]

/-- C6: `apply_safety_filters` drops exactly the records whose lowered
`content`/`cleaned_content` contains a blacklisted keyword as a
substring, or whose uppercase ratio exceeds `0.5` on texts longer than 20
characters, or whose `!?.` ratio exceeds `0.1`; dropping is a hard
exclusion (kept records only gain `safety_passed = True`); in particular
no record whose text is `"SPAM BUY NOW LIMITED TIME OFFER!!!"` survives,
regardless of its similarity score. -/
theorem apply_safety_filters_hard_exclusion (recs : List Rec) :
    apply_safety_filters recs
      = (recs.filter isSafeRec).map (fun r => { r with safety_passed := some true })
    ∧ (∀ r : Rec, isSafeRec r = false ↔
        (∃ kw ∈ safety_keywords,
            strContainsSub (lowerStr r.content) kw = true
            ∨ strContainsSub (lowerStr r.cleaned_content) kw = true)
        ∨ (20 < (lowerStr r.content).length
            ∧ (1 : ℚ) / 2 < (capsCount r.content : ℚ) / ((lowerStr r.content).length : ℚ))
        ∨ ((lowerStr r.content).length : ℚ) * (1/10) < (punctCount (lowerStr r.content) : ℚ))
    ∧ (∀ r ∈ apply_safety_filters recs,
        r.content ≠ "SPAM BUY NOW LIMITED TIME OFFER!!!") := by
  refine ⟨apply_safety_filters_eq_filter_map recs, ?_, ?_⟩
  · intro r
    by_cases hkw : safety_keywords.any
        (fun kw => strContainsSub (lowerStr r.content) kw
          || strContainsSub (lowerStr r.cleaned_content) kw) = true
    · simp only [isSafeRec, hkw, if_true]
      have hex : ∃ kw ∈ safety_keywords,
          strContainsSub (lowerStr r.content) kw = true
          ∨ strContainsSub (lowerStr r.cleaned_content) kw = true := by
        rw [List.any_eq_true] at hkw
        obtain ⟨kw, hmem, hor⟩ := hkw
        exact ⟨kw, hmem, Bool.or_eq_true_iff.mp hor⟩
      simp [hex]
    · have hkwf : safety_keywords.any
          (fun kw => strContainsSub (lowerStr r.content) kw
            || strContainsSub (lowerStr r.cleaned_content) kw) = false :=
        Bool.eq_false_iff.mpr hkw
      have hnex : ¬ ∃ kw ∈ safety_keywords,
          strContainsSub (lowerStr r.content) kw = true
          ∨ strContainsSub (lowerStr r.cleaned_content) kw = true := by
        rw [List.any_eq_true] at hkw
        intro ⟨kw, hmem, hor⟩
        exact hkw ⟨kw, hmem, Bool.or_eq_true_iff.mpr hor⟩
      simp only [isSafeRec, hkwf, Bool.false_eq_true, if_false]
      constructor
      · intro hb
        rw [Bool.not_eq_false'] at hb
        rcases Bool.or_eq_true_iff.mp hb with hb1 | hb1
        · by_cases hlen : 20 < (lowerStr r.content).length
          · rw [if_pos hlen] at hb1
            exact Or.inr (Or.inl ⟨hlen, of_decide_eq_true hb1⟩)
          · rw [if_neg hlen] at hb1
            exact absurd hb1 Bool.false_ne_true
        · exact Or.inr (Or.inr (of_decide_eq_true hb1))
      · intro hb
        rcases hb with hex | ⟨hlen, hcaps⟩ | hpunct
        · exact absurd hex hnex
        · have h1 : (if 20 < (lowerStr r.content).length then
              decide ((1 : ℚ) / 2 < (capsCount r.content : ℚ)
                / ((lowerStr r.content).length : ℚ))
            else false) = true := by
            rw [if_pos hlen]
            exact decide_eq_true hcaps
          rw [Bool.not_eq_false']
          exact Bool.or_eq_true_iff.mpr (Or.inl h1)
        · have h1 : decide (((lowerStr r.content).length : ℚ) * (1/10)
              < (punctCount (lowerStr r.content) : ℚ)) = true :=
            decide_eq_true hpunct
          rw [Bool.not_eq_false']
          exact Bool.or_eq_true_iff.mpr (Or.inr h1)
  · intro r hr
    obtain ⟨r0, _, hsafe, he⟩ := mem_apply_safety_filters hr
    intro hcontra
    have hc0 : r0.content = "SPAM BUY NOW LIMITED TIME OFFER!!!" := by
      rw [he] at hcontra
      exact hcontra
    rw [isSafeRec_spam_content r0 hc0] at hsafe
    exact Bool.false_ne_true hsafe

/-- Witness for C6: the concrete spam record is classified unsafe through
the keyword disjunct, and the filter on it is the hard exclusion map. -/
theorem apply_safety_filters_hard_exclusion_witness :
    isSafeRec recSpamW = false
    ∧ apply_safety_filters [recSpamW]
        = ([recSpamW].filter isSafeRec).map (fun r => { r with safety_passed := some true }) :=
  ⟨((apply_safety_filters_hard_exclusion [recSpamW]).2.1 recSpamW).mpr
      (Or.inl ⟨"spam", by decide, Or.inl (by decide)⟩),
   (apply_safety_filters_hard_exclusion [recSpamW]).1⟩

/-- Counterexample to C7 as stated: for two items with equal starting
score `0` and ages 1 day versus 30 days, the younger item's score after
`calculate_recency_boost` is NOT strictly greater (both are `0`). -/
theorem recency_strictness_counterexample :
    (calculate_recency_boost [cexYoung, cexOld]).map (fun r => r.similarity_score) = [0, 0]
    ∧ ¬ (((calculate_recency_boost [cexYoung, cexOld]).get
          ⟨1, by norm_num [calculate_recency_boost]⟩).similarity_score
        < ((calculate_recency_boost [cexYoung, cexOld]).get
          ⟨0, by norm_num [calculate_recency_boost]⟩).similarity_score) := by
  constructor
  · norm_num [calculate_recency_boost, applyRecency, recencyFactor, recencyDecayDays,
      cexYoung, cexOld]
  · norm_num [calculate_recency_boost, applyRecency, recencyFactor, recencyDecayDays,
      cexYoung, cexOld]

/-- C7 (amended): `calculate_recency_boost` multiplies each score by the
factor `1.2` for age ≤ 1 day, `1.1` for ages in (1, 7], the linear decay
value for ages in (7, 30], and `1.0` beyond 30 days, recording the factor
on the record; consequently, for two items with equal POSITIVE starting
scores and ages 1 versus 30 days, the younger item's score is strictly
greater after the boost. -/
theorem calculate_recency_boost_factors (recs : List Rec) (r ra rb : Rec) :
    calculate_recency_boost recs = recs.map applyRecency
    ∧ (applyRecency r).similarity_score = r.similarity_score * recencyFactor r.days_old
    ∧ (applyRecency r).recency_boost = some (recencyFactor r.days_old)
    ∧ (r.days_old ≤ 1 → recencyFactor r.days_old = 12/10)
    ∧ (1 < r.days_old → r.days_old ≤ 7 → recencyFactor r.days_old = 11/10)
    ∧ (7 < r.days_old → r.days_old ≤ 30 → recencyFactor r.days_old
        = 1 + (1/10) * (1 - (r.days_old : ℚ) / 30))
    ∧ (30 < r.days_old → recencyFactor r.days_old = 1)
    ∧ (ra.days_old = 1 → rb.days_old = 30
        → ra.similarity_score = rb.similarity_score → 0 < ra.similarity_score
        → (applyRecency rb).similarity_score < (applyRecency ra).similarity_score) := by
  refine ⟨rfl, rfl, rfl, ?_, ?_, ?_, ?_, ?_⟩
  · intro h1
    rw [recencyFactor, if_pos h1]
  · intro h1 h7
    rw [recencyFactor, if_neg (by omega), if_pos h7]
  · intro h7 h30
    rw [recencyFactor, if_neg (by omega), if_neg (by omega),
      if_pos (show r.days_old ≤ recencyDecayDays by
        simp only [recencyDecayDays]; omega)]
    norm_num [recencyDecayDays]
  · intro h30
    rw [recencyFactor, if_neg (by omega), if_neg (by omega),
      if_neg (by simp only [recencyDecayDays]; omega)]
  · intro h1 h30 hs hpos
    have hfy : recencyFactor ra.days_old = 12/10 := by
      rw [h1]; norm_num [recencyFactor]
    have hfo : recencyFactor rb.days_old = 1 := by
      rw [h30]; norm_num [recencyFactor, recencyDecayDays]
    show rb.similarity_score * recencyFactor rb.days_old
        < ra.similarity_score * recencyFactor ra.days_old
    rw [hfy, hfo, ← hs]
    have := mul_lt_mul_of_pos_left (show (1 : ℚ) < 12/10 by norm_num) hpos
    simpa using this

/-- Witness for C7 at concrete records with equal positive starting
scores and ages 1 versus 30 days. -/
theorem calculate_recency_boost_factors_witness :
    (applyRecency cexOldPos).similarity_score
      < (applyRecency cexYoungPos).similarity_score :=
  (calculate_recency_boost_factors [] default cexYoungPos cexOldPos).2.2.2.2.2.2.2
    rfl rfl rfl (by norm_num [cexYoungPos, cexYoung])

/-- C8: with the automatic strategy hint, the corpus size alone selects
the index: `n < 1000` an exact brute-force inner-product index with no
training pass; `1000 ≤ n < 10000` a clustered (IVF) index with
`min(sqrt n, 1000)` clusters, trained on the data, probing
`min(10, nlist)` clusters per query; `n ≥ 10000` an HNSW graph index with
`M = 16`, `efConstruction = 200`, `efSearch = 50`. -/
theorem build_index_auto_selection (n : Nat) :
    (n < 1000 → build_index_auto n = FaissIndex.flatIP
      ∧ indexTrainsOnData (build_index_auto n) = false)
    ∧ (1000 ≤ n → n < 10000 →
        build_index_auto n
          = FaissIndex.ivfFlat (min (Nat.sqrt n) 1000) (min 10 (min (Nat.sqrt n) 1000))
        ∧ indexTrainsOnData (build_index_auto n) = true)
    ∧ (10000 ≤ n → build_index_auto n = FaissIndex.hnswFlat 16 200 50
      ∧ indexTrainsOnData (build_index_auto n) = false) := by
  refine ⟨?_, ?_, ?_⟩
  · intro h
    rw [build_index_auto, if_pos h]
    exact ⟨rfl, rfl⟩
  · intro h1 h2
    rw [build_index_auto, if_neg (by omega), if_pos h2]
    exact ⟨rfl, rfl⟩
  · intro h
    rw [build_index_auto, if_neg (by omega), if_neg (by omega)]
    exact ⟨rfl, rfl⟩

/-- Witness for C8 at corpus sizes 500, 5000 and 20000
(`sqrt 5000 = 70`, so the clustered index gets 70 clusters and probes
10). -/
theorem build_index_auto_selection_witness :
    build_index_auto 500 = FaissIndex.flatIP
    ∧ build_index_auto 5000 = FaissIndex.ivfFlat 70 10
    ∧ build_index_auto 20000 = FaissIndex.hnswFlat 16 200 50 := by
  have hs : Nat.sqrt 5000 = 70 := by
    have hlo : 70 ≤ Nat.sqrt 5000 := Nat.le_sqrt.mpr (by norm_num)
    have hhi : Nat.sqrt 5000 < 71 := Nat.sqrt_lt.mpr (by norm_num)
    omega
  refine ⟨((build_index_auto_selection 500).1 (by norm_num)).1, ?_,
    ((build_index_auto_selection 20000).2.2 (by norm_num)).1⟩
  have h2 := ((build_index_auto_selection 5000).2.1 (by norm_num) (by norm_num)).1
  rw [h2, hs]
  norm_num

/-- C9: retrieval and personalization are deterministic — two calls with
identical index contents, query, `k` and exclusion set (respectively
identical recommendations and an unchanged profile environment) return
identical results. -/
theorem retrieval_personalization_deterministic :
    (∀ (st st2 : SearchState) (q q2 : List ℚ) (k k2 : Nat) (ex ex2 : List Int),
        st = st2 → q = q2 → k = k2 → ex = ex2 →
        get_recommendations st q k ex = get_recommendations st2 q2 k2 ex2)
    ∧ (∀ (env env2 : Env) (recs recs2 : List Rec) (u u2 : String),
        env = env2 → recs = recs2 → u = u2 →
        personalize_recommendations env recs u
          = personalize_recommendations env2 recs2 u2) := by
  constructor
  · intro st st2 q q2 k k2 ex ex2 h1 h2 h3 h4
    subst h1; subst h2; subst h3; subst h4
    rfl
  · intro env env2 recs recs2 u u2 h1 h2 h3
    subst h1; subst h2; subst h3
    rfl

/-- Witness for C9 at a concrete retrieval call and a concrete
personalization call. -/
theorem retrieval_personalization_deterministic_witness :
    get_recommendations goodState [1] 1 [] = get_recommendations goodState [1] 1 []
    ∧ personalize_recommendations envW [recA1] "u"
        = personalize_recommendations envW [recA1] "u" :=
  ⟨retrieval_personalization_deterministic.1 goodState goodState [1] [1] 1 1 [] []
      rfl rfl rfl rfl,
   retrieval_personalization_deterministic.2 envW envW [recA1] [recA1] "u" "u"
      rfl rfl rfl⟩

theorem length_search (st : SearchState) (q : List ℚ) (j : Nat) :
    (search st q j).length = min j st.embeddings.length := by
  simp [search, List.length_take, List.length_insertionSort]

theorem sorted_search (st : SearchState) (q : List ℚ) (j : Nat) :
    List.Sorted candGE (search st q j) :=
  List.Pairwise.sublist (List.take_sublist _ _) (List.sorted_insertionSort candGE _)

theorem recsGo_ok_props (st : SearchState) (k : Nat) (ex : List Int) :
    ∀ (cs : List (ℚ × Nat)) (acc l : List Rec),
    recsGo st k ex cs acc = .ok l →
    (acc.length < k → l.length ≤ k)
    ∧ (∀ r ∈ l, r ∈ acc ∨ (¬(ex.contains r.post_id = true)
        ∧ ∃ c ∈ cs, ∃ item ∈ st.post_data, c.2 < st.post_ids.length
            ∧ item.post_id = st.post_ids.getD c.2 0
            ∧ r.similarity_score = c.1 ∧ r.post_id = item.post_id)) := by
  intro cs
  induction cs with
  | nil =>
    intro acc l h
    simp only [recsGo, Except.ok.injEq] at h
    subst h
    exact ⟨fun hk => le_of_lt hk, fun r hr => Or.inl hr⟩
  | cons c rest ih =>
    intro acc l h
    obtain ⟨sim, idx⟩ := c
    simp only [recsGo] at h
    by_cases hidx : st.post_ids.length ≤ idx
    · rw [if_pos hidx] at h
      obtain ⟨hlen, hmem⟩ := ih acc l h
      refine ⟨hlen, fun r hr => ?_⟩
      rcases hmem r hr with hacc | ⟨hex, c, hc, rest'⟩
      · exact Or.inl hacc
      · exact Or.inr ⟨hex, c, List.mem_cons_of_mem _ hc, rest'⟩
    · rw [if_neg hidx] at h
      by_cases hexc : ex.contains (st.post_ids.getD idx 0) = true
      · rw [if_pos hexc] at h
        obtain ⟨hlen, hmem⟩ := ih acc l h
        refine ⟨hlen, fun r hr => ?_⟩
        rcases hmem r hr with hacc | ⟨hex, c, hc, rest'⟩
        · exact Or.inl hacc
        · exact Or.inr ⟨hex, c, List.mem_cons_of_mem _ hc, rest'⟩
      · rw [if_neg hexc] at h
        cases hf : st.post_data.find? (fun item => item.post_id == st.post_ids.getD idx 0) with
        | none =>
          rw [hf] at h
          exact Except.noConfusion h
        | some item =>
          simp only [hf] at h
          have hitem : item ∈ st.post_data := List.mem_of_find?_eq_some hf
          have hbeq := List.find?_some hf
          have hpid : item.post_id = st.post_ids.getD idx 0 := eq_of_beq hbeq
          have hnew : ∀ r : Rec,
              r = mkRecommendation sim item (acc.length + 1) →
              ¬(ex.contains r.post_id = true)
              ∧ ∃ c ∈ (sim, idx) :: rest, ∃ it ∈ st.post_data,
                  c.2 < st.post_ids.length
                  ∧ it.post_id = st.post_ids.getD c.2 0
                  ∧ r.similarity_score = c.1 ∧ r.post_id = it.post_id := by
            intro r hr
            subst hr
            refine ⟨by rw [show (mkRecommendation sim item (acc.length + 1)).post_id
                = item.post_id from rfl, hpid]; exact hexc,
              (sim, idx), List.mem_cons_self _ _, item, hitem,
              lt_of_not_le hidx, hpid, rfl, rfl⟩
          by_cases hstop : k ≤ (acc ++ [mkRecommendation sim item (acc.length + 1)]).length
          · rw [if_pos hstop] at h
            have hl : l = acc ++ [mkRecommendation sim item (acc.length + 1)] := by
              cases h
              rfl
            subst hl
            constructor
            · intro hacc
              simp only [List.length_append, List.length_cons, List.length_nil]
              omega
            · intro r hr
              rcases List.mem_append.mp hr with hacc | hone
              · exact Or.inl hacc
              · have : r = mkRecommendation sim item (acc.length + 1) := by
                  simpa using hone
                exact Or.inr (hnew r this)
          · rw [if_neg hstop] at h
            obtain ⟨hlen, hmem⟩ := ih _ l h
            constructor
            · intro _
              apply hlen
              simp only [List.length_append, List.length_cons, List.length_nil] at hstop ⊢
              omega
            · intro r hr
              rcases hmem r hr with hacc | ⟨hex, c, hc, rest'⟩
              · rcases List.mem_append.mp hacc with h1 | h1
                · exact Or.inl h1
                · have : r = mkRecommendation sim item (acc.length + 1) := by
                    simpa using h1
                  exact Or.inr (hnew r this)
              · exact Or.inr ⟨hex, c, List.mem_cons_of_mem _ hc, rest'⟩

theorem recsGo_error_props (st : SearchState) (k : Nat) (ex : List Int) :
    ∀ (cs : List (ℚ × Nat)) (acc : List Rec) (e : String),
    recsGo st k ex cs acc = .error e →
    ∃ c ∈ cs, c.2 < st.post_ids.length
      ∧ ¬(ex.contains (st.post_ids.getD c.2 0) = true)
      ∧ st.post_data.find? (fun item => item.post_id == st.post_ids.getD c.2 0) = none := by
  intro cs
  induction cs with
  | nil =>
    intro acc e h
    exact absurd h (by simp [recsGo])
  | cons c rest ih =>
    intro acc e h
    obtain ⟨sim, idx⟩ := c
    simp only [recsGo] at h
    by_cases hidx : st.post_ids.length ≤ idx
    · rw [if_pos hidx] at h
      obtain ⟨c, hc, hrest⟩ := ih acc e h
      exact ⟨c, List.mem_cons_of_mem _ hc, hrest⟩
    · rw [if_neg hidx] at h
      by_cases hexc : ex.contains (st.post_ids.getD idx 0) = true
      · rw [if_pos hexc] at h
        obtain ⟨c, hc, hrest⟩ := ih acc e h
        exact ⟨c, List.mem_cons_of_mem _ hc, hrest⟩
      · rw [if_neg hexc] at h
        cases hf : st.post_data.find? (fun item => item.post_id == st.post_ids.getD idx 0) with
        | none =>
          exact ⟨(sim, idx), List.mem_cons_self _ _, lt_of_not_le hidx, hexc, hf⟩
        | some item =>
          simp only [hf] at h
          by_cases hstop : k ≤ (acc ++ [mkRecommendation sim item (acc.length + 1)]).length
          · rw [if_pos hstop] at h
            exact absurd h (by simp)
          · rw [if_neg hstop] at h
            obtain ⟨c, hc, hrest⟩ := ih _ e h
            exact ⟨c, List.mem_cons_of_mem _ hc, hrest⟩

/-- Counterexample to C2 as stated: on a built index whose metadata names
post id `5` but whose item store has no such record, `get_recommendations`
raises (pandas `.iloc[0]` on an empty selection) instead of skipping the
candidate silently. -/
theorem get_recommendations_missing_item_raises :
    get_recommendations staleState [1] 1 []
      = Except.error "IndexError: single positional indexer is out-of-bounds" := by
  norm_num [get_recommendations, search, dotQ, recsGo, staleState, candGE,
    List.insertionSort, List.orderedInsert]

/-- C2 (amended): `get_recommendations` requests
`min(k * 3, corpus_size)` candidates, which the index returns in
descending raw-score order; it skips candidates whose index position is
out of range of the post-id metadata and candidates whose post id is
excluded; every emitted recommendation carries its candidate's raw score
as `similarity_score` and an attached item record, at most `k` are
emitted (for `k ≥ 1`); but a reachable candidate whose post id has no
matching item record makes the call raise an `IndexError` rather than
skip silently — the call succeeds exactly when every reachable candidate
resolves to an item. -/
theorem get_recommendations_walk (st : SearchState) (q : List ℚ) (k : Nat)
    (ex : List Int) :
    get_recommendations st q k ex
      = recsGo st k ex (search st q (min (k * 3) st.post_ids.length)) []
    ∧ (search st q (min (k * 3) st.post_ids.length)).length
        = min (min (k * 3) st.post_ids.length) st.embeddings.length
    ∧ List.Sorted candGE (search st q (min (k * 3) st.post_ids.length))
    ∧ (∀ l : List Rec, get_recommendations st q k ex = .ok l → 1 ≤ k →
        l.length ≤ k
        ∧ (∀ r ∈ l, ¬(ex.contains r.post_id = true))
        ∧ (∀ r ∈ l, ∃ c ∈ search st q (min (k * 3) st.post_ids.length),
            ∃ item ∈ st.post_data, c.2 < st.post_ids.length
              ∧ item.post_id = st.post_ids.getD c.2 0
              ∧ r.similarity_score = c.1 ∧ r.post_id = item.post_id))
    ∧ (∀ e : String, get_recommendations st q k ex = .error e →
        ∃ c ∈ search st q (min (k * 3) st.post_ids.length),
          c.2 < st.post_ids.length
          ∧ ¬(ex.contains (st.post_ids.getD c.2 0) = true)
          ∧ st.post_data.find? (fun item => item.post_id == st.post_ids.getD c.2 0) = none)
    ∧ ((∀ c ∈ search st q (min (k * 3) st.post_ids.length),
          c.2 < st.post_ids.length → ¬(ex.contains (st.post_ids.getD c.2 0) = true)
          → (st.post_data.find? (fun item => item.post_id == st.post_ids.getD c.2 0)).isSome = true)
        → ∃ l : List Rec, get_recommendations st q k ex = .ok l) := by
  refine ⟨rfl, length_search st q _, sorted_search st q _, ?_, ?_, ?_⟩
  · intro l hok hk
    obtain ⟨hlen, hmem⟩ := recsGo_ok_props st k ex _ [] l hok
    refine ⟨hlen (by simpa using hk), ?_, ?_⟩
    · intro r hr
      rcases hmem r hr with habs | ⟨hex, _⟩
      · exact absurd habs (List.not_mem_nil r)
      · exact hex
    · intro r hr
      rcases hmem r hr with habs | ⟨_, hc⟩
      · exact absurd habs (List.not_mem_nil r)
      · exact hc
  · intro e herr
    exact recsGo_error_props st k ex _ [] e herr
  · intro hall
    cases hres : get_recommendations st q k ex with
    | ok l => exact ⟨l, rfl⟩
    | error e =>
      obtain ⟨c, hc, hlt, hexc, hnone⟩ := recsGo_error_props st k ex _ [] e hres
      have hsome := hall c hc hlt hexc
      rw [hnone] at hsome
      exact absurd hsome (by simp)

/-- Witness for C2 (amended) on a consistent two-post index: the search
fetch size, and the emitted recommendation count bound for a concrete
successful call. -/
theorem get_recommendations_walk_witness :
    (search goodState [1] (min (1 * 3) goodState.post_ids.length)).length
      = min (min (1 * 3) goodState.post_ids.length) goodState.embeddings.length
    ∧ ([mkRecommendation 1 itemW1 1]).length ≤ 1 := by
  refine ⟨(get_recommendations_walk goodState [1] 1 []).2.1, ?_⟩
  have h0 : get_recommendations goodState [1] 1 []
      = Except.ok [mkRecommendation 1 itemW1 1] := by
    norm_num [get_recommendations, search, dotQ, recsGo, goodState, candGE,
      List.insertionSort, List.orderedInsert, itemW1, itemW2, mkRecommendation]
  exact ((get_recommendations_walk goodState [1] 1 []).2.2.2.1
    [mkRecommendation 1 itemW1 1] h0 (le_refl 1)).1

theorem length_mutateAt (live : List Nat) (f : Rec → Rec) (st : List Rec) :
    (mutateAt live f st).length = st.length := by
  simp [mutateAt, List.length_mapIdx]

theorem getR_mutateAt (live : List Nat) (f : Rec → Rec) (st : List Rec)
    (i : Nat) (hi : i < st.length) :
    getR (mutateAt live f st) i
      = if live.contains i then f (getR st i) else getR st i := by
  have h1 : i < (mutateAt live f st).length := by
    rw [length_mutateAt]; exact hi
  unfold mutateAt at h1 ⊢
  unfold getR
  rw [List.getD_eq_getElem?_getD, List.getD_eq_getElem?_getD,
    List.getElem?_eq_getElem h1, List.getElem?_eq_getElem hi,
    List.getElem_mapIdx]
  rfl

theorem getR_set_ne (st : List Rec) (j : Nat) (x : Rec) (i : Nat) (h : j ≠ i) :
    getR (st.set j x) i = getR st i := by
  unfold getR
  rw [List.getD_eq_getElem?_getD, List.getD_eq_getElem?_getD, List.getElem?_set,
    if_neg h]

theorem length_diversityGoS :
    ∀ (l : List Nat) (c : String → Nat) (st : List Rec),
    (diversityGoS l c st).2.length = st.length := by
  intro l
  induction l with
  | nil => intro c st; rfl
  | cons i rest ih =>
    intro c st
    simp only [diversityGoS]
    by_cases hc : c (getR st i).author_address < maxPostsPerAuthor
    · rw [if_pos hc]
      simp only []
      rw [ih]
      exact List.length_set st i _
    · rw [if_neg hc]
      exact ih c st

theorem diversityGoS_untouched :
    ∀ (l : List Nat) (c : String → Nat) (st : List Rec) (i : Nat), i ∉ l →
    getR (diversityGoS l c st).2 i = getR st i := by
  intro l
  induction l with
  | nil => intro c st i _; rfl
  | cons j rest ih =>
    intro c st i hi
    have hij : j ≠ i := fun he => hi (he ▸ List.mem_cons_self j rest)
    have hirest : i ∉ rest := fun hm => hi (List.mem_cons_of_mem j hm)
    simp only [diversityGoS]
    by_cases hc : c (getR st j).author_address < maxPostsPerAuthor
    · rw [if_pos hc]
      simp only []
      rw [ih _ _ i hirest, getR_set_ne st j _ i hij]
    · rw [if_neg hc]
      exact ih c st i hirest

theorem diversityGoS_live_subset :
    ∀ (l : List Nat) (c : String → Nat) (st : List Rec) (j : Nat),
    j ∈ (diversityGoS l c st).1 → j ∈ l := by
  intro l
  induction l with
  | nil => intro c st j h; exact absurd h (List.not_mem_nil j)
  | cons i rest ih =>
    intro c st j h
    simp only [diversityGoS] at h
    by_cases hc : c (getR st i).author_address < maxPostsPerAuthor
    · rw [if_pos hc] at h
      simp only [] at h
      rcases List.mem_cons.mp h with h1 | h1
      · exact h1 ▸ List.mem_cons_self i rest
      · exact List.mem_cons_of_mem i (ih _ _ j h1)
    · rw [if_neg hc] at h
      exact List.mem_cons_of_mem i (ih c st j h)

theorem length_assignRanksFromS :
    ∀ (live : List Nat) (j : Nat) (st : List Rec),
    (assignRanksFromS j live st).length = st.length := by
  intro live
  induction live with
  | nil => intro j st; rfl
  | cons i rest ih =>
    intro j st
    simp only [assignRanksFromS]
    rw [ih]
    exact List.length_set st i _

theorem assignRanksFromS_untouched :
    ∀ (live : List Nat) (j : Nat) (st : List Rec) (i : Nat), i ∉ live →
    getR (assignRanksFromS j live st) i = getR st i := by
  intro live
  induction live with
  | nil => intro j st i _; rfl
  | cons m rest ih =>
    intro j st i hi
    have hmi : m ≠ i := fun he => hi (he ▸ List.mem_cons_self m rest)
    have hirest : i ∉ rest := fun hm => hi (List.mem_cons_of_mem m hm)
    simp only [assignRanksFromS]
    rw [ih _ _ i hirest, getR_set_ne st m _ i hmi]

theorem isSafeRec_safety_flag (r : Rec) (b : Option Bool) :
    isSafeRec { r with safety_passed := b } = isSafeRec r := rfl

/-- C10: `personalize_recommendations` mutates the caller's
recommendation dictionaries in place: the boost stages overwrite
`similarity_score` with the boosted value and add boost fields on the
caller's own objects, the returned list aliases those objects (it is a
list of references into the caller's store), and a recommendation the
safety filter removes from the output has nevertheless been mutated —
its stored state carries the boosted score and `safety_passed = False`. -/
theorem personalizeS_frame (env : Env) (st0 : List Rec) (u : String) :
    (personalizeS env st0 u).2.length = st0.length
    ∧ (∀ j ∈ (personalizeS env st0 u).1, j < st0.length)
    ∧ (∀ i : Nat, i < st0.length →
        ¬((env.interacted_posts u).contains (getR st0 i).post_id = true) →
        isSafeRec (boostAll env (env.user_interests u ++ env.subscribed_topics u)
          (getR st0 i)) = false →
        getR (personalizeS env st0 u).2 i
          = { boostAll env (env.user_interests u ++ env.subscribed_topics u) (getR st0 i)
              with safety_passed := some false }
        ∧ i ∉ (personalizeS env st0 u).1) := by
  by_cases h0 : st0.isEmpty
  · rw [List.isEmpty_iff] at h0
    subst h0
    refine ⟨rfl, ?_, ?_⟩
    · intro j hj
      exact absurd hj (List.not_mem_nil j)
    · intro i hi
      simp at hi
  · by_cases h1 : ((List.range st0.length).filter
        (fun i => !((env.interacted_posts u).contains (getR st0 i).post_id))).isEmpty
    · have hps : personalizeS env st0 u = ([], st0) := by
        simp only [personalizeS]
        rw [if_neg h0, if_pos h1]
      rw [hps]
      refine ⟨rfl, ?_, ?_⟩
      · intro j hj
        exact absurd hj (List.not_mem_nil j)
      · intro i hi hni _
        rw [List.isEmpty_iff] at h1
        have hmem : i ∈ (List.range st0.length).filter
            (fun i => !((env.interacted_posts u).contains (getR st0 i).post_id)) :=
          List.mem_filter.mpr ⟨List.mem_range.mpr hi, by simpa using hni⟩
        rw [h1] at hmem
        exact absurd hmem (List.not_mem_nil i)
    · simp only [personalizeS]
      rw [if_neg h0, if_neg h1]
      set live1 := (List.range st0.length).filter
        (fun i => !((env.interacted_posts u).contains (getR st0 i).post_id)) with hlive1
      set preferred := env.user_interests u ++ env.subscribed_topics u with hpreferred
      set st2 := mutateAt live1 applyRecency st0 with hst2
      set st3 := mutateAt live1 (applyTopic preferred) st2 with hst3
      set st4 := mutateAt live1 (applyEngagement env) st3 with hst4
      set st5 := mutateAt live1
        (fun r => { r with safety_passed := some (isSafeRec r) }) st4 with hst5
      set live5 := live1.filter (fun i => isSafeRec (getR st5 i)) with hlive5
      set sorted5 := live5.insertionSort (liveGE st5) with hsorted5
      set res6 := diversityGoS sorted5 (fun _ => 0) st5 with hres6
      set live7 := res6.1.insertionSort (liveGE res6.2) with hlive7
      set st7 := assignRanksFromS 0 live7 res6.2 with hst7
      refine ⟨?_, ?_, ?_⟩
      · show st7.length = st0.length
        rw [hst7, length_assignRanksFromS, hres6, length_diversityGoS, hst5,
          length_mutateAt, hst4, length_mutateAt, hst3, length_mutateAt, hst2,
          length_mutateAt]
      · intro j hj
        have hj7 : j ∈ live7 := hj
        rw [hlive7, List.mem_insertionSort] at hj7
        rw [hres6] at hj7
        have hj6 := diversityGoS_live_subset sorted5 (fun _ => 0) st5 j hj7
        rw [hsorted5, List.mem_insertionSort, hlive5] at hj6
        have hj1 := (List.mem_filter.mp hj6).1
        rw [hlive1] at hj1
        exact List.mem_range.mp (List.mem_filter.mp hj1).1
      · intro i hi hni hunsafe
        have hiLive1 : i ∈ live1 := by
          rw [hlive1]
          exact List.mem_filter.mpr ⟨List.mem_range.mpr hi, by simpa using hni⟩
        have hcont1 : live1.contains i = true := by simpa using hiLive1
        have hlen2 : i < st2.length := by rw [hst2, length_mutateAt]; exact hi
        have hlen3 : i < st3.length := by rw [hst3, length_mutateAt]; exact hlen2
        have hlen4 : i < st4.length := by rw [hst4, length_mutateAt]; exact hlen3
        have h2 : getR st2 i = applyRecency (getR st0 i) := by
          rw [hst2, getR_mutateAt live1 applyRecency st0 i hi, if_pos hcont1]
        have h3 : getR st3 i = applyTopic preferred (applyRecency (getR st0 i)) := by
          rw [hst3, getR_mutateAt live1 (applyTopic preferred) st2 i hlen2,
            if_pos hcont1, h2]
        have h4 : getR st4 i = boostAll env preferred (getR st0 i) := by
          rw [hst4, getR_mutateAt live1 (applyEngagement env) st3 i hlen3,
            if_pos hcont1, h3]
          rfl
        have h5v : getR st5 i
            = { boostAll env preferred (getR st0 i) with safety_passed := some false } := by
          rw [hst5, getR_mutateAt live1
            (fun r => { r with safety_passed := some (isSafeRec r) }) st4 i hlen4,
            if_pos hcont1]
          simp only [h4, hunsafe]
        have hnot5 : i ∉ live5 := by
          intro hmem
          rw [hlive5] at hmem
          have hsafe := (List.mem_filter.mp hmem).2
          rw [h5v, isSafeRec_safety_flag, hunsafe] at hsafe
          exact Bool.false_ne_true hsafe
        have hnotSorted : i ∉ sorted5 := by
          intro hmem
          rw [hsorted5, List.mem_insertionSort] at hmem
          exact hnot5 hmem
        have hnotRes6 : i ∉ res6.1 := by
          intro hmem
          rw [hres6] at hmem
          exact hnotSorted (diversityGoS_live_subset sorted5 (fun _ => 0) st5 i hmem)
        have hnotLive7 : i ∉ live7 := by
          intro hmem
          rw [hlive7, List.mem_insertionSort] at hmem
          exact hnotRes6 hmem
        refine ⟨?_, hnotLive7⟩
        show getR st7 i = _
        rw [hst7, assignRanksFromS_untouched live7 0 res6.2 i hnotLive7, hres6,
          diversityGoS_untouched sorted5 (fun _ => 0) st5 i hnotSorted]
        exact h5v
/-- Witness for C10: the single spam recommendation is dropped from the
output, yet the caller's object at position 0 ends boosted and flagged
`safety_passed = False`. -/
theorem personalizeS_frame_witness :
    getR (personalizeS envW [recSpamW] "u").2 0
      = { boostAll envW (envW.user_interests "u" ++ envW.subscribed_topics "u")
          (getR [recSpamW] 0) with safety_passed := some false }
    ∧ 0 ∉ (personalizeS envW [recSpamW] "u").1 :=
  (personalizeS_frame envW [recSpamW] "u").2.2 0 (by decide) (by decide) (by decide)

end SmartBlock
